import Mathlib

/-
Verification of the model_filtering batch execution framework
(`model_filtering/pipeline.py` and `model_filtering/run_reward.py`).

Each Python function relevant to the specification's testable properties is
shallowly embedded as an executable Lean definition, translated from the
source.  Filesystem interaction is abstracted: a directory listing becomes a
list of file entries (name plus optionally-parsed content), wall-clock time
becomes an abstract duration, and the external generation/scoring
collaborators become function parameters.
-/

namespace ModelFiltering

/-! ## Shard partitioner (`DifficultyFilterPipeline.prepare_dataset`, lines 108-118)

The DP split: `per_rank = total // dp_size`, `start = dp_rank * per_rank`,
`end = start + per_rank if dp_rank != dp_size - 1 else total`.  The split is
only applied when `dp_size > 1`; for `dp_size == 1` the whole dataset
(range `[0, total)`) is used. -/

/-- Half-open index range `[start, end)` assigned to rank `r` out of `S` ranks
over `T` samples, translated from `prepare_dataset`. -/
def prepareRange (T S r : Nat) : Nat × Nat :=
  if 1 < S then
    let perRank := T / S
    let start := r * perRank
    (start, if r ≠ S - 1 then start + perRank else T)
  else
    (0, T)

/-- The full shard-partitioner contract for `T` samples and `S` ranks:
explicit start/end formulas, contiguity, pairwise disjointness, exact
coverage of `[0, T)`, and the identity range for `S = 1`. -/
def ShardPartitionSpec (T S : Nat) : Prop :=
  (∀ r, r < S → (prepareRange T S r).1 = r * (T / S) ∧
    (prepareRange T S r).2 = if r = S - 1 then T else (r + 1) * (T / S)) ∧
  (∀ r, r + 1 < S → (prepareRange T S r).2 = (prepareRange T S (r + 1)).1) ∧
  (∀ r r', r < r' → r' < S → (prepareRange T S r).2 ≤ (prepareRange T S r').1) ∧
  (∀ i, i < T ↔ ∃ r, r < S ∧ (prepareRange T S r).1 ≤ i ∧ i < (prepareRange T S r).2) ∧
  (S = 1 → prepareRange T S 0 = (0, T))

/-! ## Checkpoint resolver (`DifficultyFilterPipeline.load_checkpoint`, lines 145-194)

The output directory is abstracted as the glob listing `batch_*.json`: a list
of `FileEntry`, each with its basename and, if `json.load` succeeds, its
parsed content — a batch record mapping sample indices to payloads (payload
type `α`; JSON object keys are the numerals written by `run_inference`, so
sample indices are `Nat`).  `json.load` failure is `content = none`. -/

/-- One file from the `batch_*.json` glob listing of a rank output
directory. -/
structure FileEntry (α : Type) where
  name : String
  content : Option (List (Nat × α))
deriving DecidableEq

/-- The checkpoint dictionary returned by `load_checkpoint`.  Keys of the
results map are the `f"{batch_idx}_{i}"` strings; since both parts are
decimal numerals the key is faithfully the pair `(batch_idx, i)`. -/
structure Checkpoint (α : Type) where
  currentBatchIdx : Nat
  globalResults : List ((Nat × Nat) × α)
  globalErrors : List ((Nat × Nat) × String)
deriving DecidableEq

/-- Python `str.split(sep)` for a one-character separator, over the
character list of the string. -/
def splitOnChar (c : Char) : List Char → List (List Char)
  | [] => [[]]
  | x :: xs =>
    match splitOnChar c xs with
    | [] => [[]]
    | h :: t => if x = c then [] :: h :: t else (x :: h) :: t

/-- Python `int(str)` restricted to plain decimal numerals: `none` on the
empty string or any non-digit character (`ValueError`). -/
def digitsToNat? (l : List Char) : Option Nat :=
  l.foldl
    (fun acc c =>
      match acc with
      | some n =>
        if 48 ≤ c.toNat ∧ c.toNat ≤ 57 then some (n * 10 + (c.toNat - 48)) else none
      | none => none)
    (if l.isEmpty then none else some 0)

/-- `int(os.path.basename(batch_file).split("_")[1].split(".")[0])`, with
`ValueError`/`IndexError` as `none`.  Batch indices are nonnegative decimal
numerals (the writer uses `batch_{idx:05d}.json`). -/
def parseBatchNum (name : String) : Option Nat :=
  match splitOnChar '_' name.toList with
  | _ :: second :: _ =>
    match splitOnChar '.' second with
    | first :: _ => digitsToNat? first
    | [] => none
  | _ => none

/-- Python dict membership test on the results map. -/
def hasKey {α : Type} (d : List ((Nat × Nat) × α)) (k : Nat × Nat) : Bool :=
  d.any (fun p => p.1 == k)

/-- Python dict assignment `d[k] = v`: overwrite in place if the key exists,
append otherwise. -/
def dictInsert {α : Type} (d : List ((Nat × Nat) × α)) (k : Nat × Nat) (v : α) :
    List ((Nat × Nat) × α) :=
  if hasKey d k then d.map (fun p => if p.1 == k then (k, v) else p)
  else d ++ [(k, v)]

/-- The `batch_files_with_idx` list: each file paired with the batch number
parsed from its name; files whose name does not parse are skipped with a
warning. -/
def withIdxOf {α : Type} (files : List (FileEntry α)) : List (Nat × FileEntry α) :=
  files.filterMap (fun f => (parseBatchNum f.name).map (fun n => (n, f)))

/-- `batch_files_with_idx.sort(key=lambda x: x[0])`. -/
def sortByIdx {α : Type} (l : List (Nat × FileEntry α)) : List (Nat × FileEntry α) :=
  l.insertionSort (fun a b => a.1 ≤ b.1)

/-- The inner loop `for i, result in batch_data.items():
global_results[f"{batch_idx}_{i}"] = result`. -/
def insertMany {α : Type} (acc : List ((Nat × Nat) × α)) (n : Nat)
    (bd : List (Nat × α)) : List ((Nat × Nat) × α) :=
  bd.foldl (fun a iv => dictInsert a (n, iv.1) iv.2) acc

/-- Loading one batch file: merge its results if `json.load` succeeds, skip
it with a warning otherwise. -/
def loadStep {α : Type} (acc : List ((Nat × Nat) × α)) (nf : Nat × FileEntry α) :
    List ((Nat × Nat) × α) :=
  match nf.2.content with
  | some bd => insertMany acc nf.1 bd
  | none => acc

/-- The `for batch_idx, batch_file in batch_files_with_idx:` loop building
`global_results`. -/
def loadFold {α : Type} (acc : List ((Nat × Nat) × α))
    (l : List (Nat × FileEntry α)) : List ((Nat × Nat) × α) :=
  l.foldl loadStep acc

/-- The non-force-regenerate body of `load_checkpoint`, applied to the
indexed file list: sort by batch number, merge loadable batches, and set
`start_batch_idx = batch_files_with_idx[-1][0] + 1` (or `0` when empty). -/
def checkpointFromIdx {α : Type} (withIdx : List (Nat × FileEntry α)) :
    Checkpoint α :=
  let sorted := sortByIdx withIdx
  let globalResults := loadFold [] sorted
  let startIdx :=
    match sorted.getLast? with
    | some nf => nf.1 + 1
    | none => 0
  ⟨startIdx, globalResults, []⟩

/-- `load_checkpoint`: a fresh state under force-regenerate, otherwise the
state recovered from the directory listing. -/
def loadCheckpoint {α : Type} (files : List (FileEntry α))
    (forceRegenerate : Bool) : Checkpoint α :=
  if forceRegenerate then ⟨0, [], []⟩
  else checkpointFromIdx (withIdxOf files)

/-- A file is fully valid when its name yields a batch index and its content
loads. -/
def isValidFile {α : Type} (f : FileEntry α) : Bool :=
  (parseBatchNum f.name).isSome && f.content.isSome

instance {α : Type} :
    IsTotal (Nat × FileEntry α) (fun a b => a.1 ≤ b.1) :=
  ⟨fun a b => Nat.le_total a.1 b.1⟩

instance {α : Type} :
    IsTrans (Nat × FileEntry α) (fun a b => a.1 ≤ b.1) :=
  ⟨fun _ _ _ => Nat.le_trans⟩

instance {α : Type} :
    IsAntisymm (Nat × FileEntry α) (fun a b => a.1 < b.1) :=
  ⟨fun _ _ h1 h2 => absurd h2 (Nat.lt_asymm h1)⟩

/-! ## Batch runner (`DifficultyFilterPipeline.run_inference`, lines 244-329)

The dataloader is a list of batches.  The runner advances an iterator past
`start_batch_idx` batches (warning, not failing, if the checkpoint claims
more batches than exist), then for each remaining batch enforces
`apply_chat_template`, invokes the generation collaborator, and writes the
artifact `batch_{idx:05d}.json` before moving on.  The generation
collaborator (`self.model.chat` plus `process_batch_outputs`) is abstracted
as a function `gen` from the batch to the artifact payload. -/

/-- One collated batch as seen by `run_inference`: its sample count
(`len(batch_dict["reward_model"]["ground_truth"])`) and its optional
`apply_chat_template` column. -/
structure BatchInput where
  size : Nat
  applyChatTemplate : Option (List Bool)
deriving DecidableEq

/-- `not all(batch_dict.get("apply_chat_template", [True] * batch_size))`. -/
def templateViolation (b : BatchInput) : Bool :=
  !((b.applyChatTemplate.getD (List.replicate b.size true)).all (fun x => x))

/-- The message of the `RuntimeError` raised on a template violation. -/
def templateErrMsg : String :=
  "Encountered apply_chat_template=False but raw_prompt column is removed. " ++
    "Please ensure all samples set apply_chat_template=True."

/-- Zero-padded `f"{idx:05d}"`. -/
def zeroPad5 (n : Nat) : String :=
  let s := toString n
  String.mk (List.replicate (5 - s.length) '0') ++ s

/-- `f"batch_{idx:05d}.json"`. -/
def batchFileName (idx : Nat) : String :=
  "batch_" ++ zeroPad5 idx ++ ".json"

/-- The `for idx, batch_dict in enumerate(batch_iter, start=start_batch_idx)`
loop: returns the artifacts written (filename and generated content) and the
uncaught `RuntimeError`, if any.  A template violation raises before the
generation collaborator is invoked and before any artifact is written for
that batch, and stops the loop. -/
def runMainLoop {γ : Type} (gen : BatchInput → γ) :
    List BatchInput → Nat → List (String × γ) × Option String
  | [], _ => ([], none)
  | b :: rest, idx =>
    if templateViolation b then ([], some templateErrMsg)
    else
      let art := (batchFileName idx, gen b)
      let r := runMainLoop gen rest (idx + 1)
      (art :: r.1, r.2)

/-- Outcome of one `run_inference` call on a shard. -/
structure RunResult (γ : Type) where
  exceedWarning : Bool
  artifacts : List (String × γ)
  fatalError : Option String
deriving DecidableEq

/-- `run_inference` after checkpoint resolution: advance the batch iterator
`start_batch_idx` times (`StopIteration` during the advance emits the
"exceeds dataset size" warning and breaks), then run the main loop over the
remaining batches. -/
def runInferenceModel {γ : Type} (gen : BatchInput → γ)
    (batches : List BatchInput) (startIdx : Nat) : RunResult γ :=
  let r := runMainLoop gen (batches.drop startIdx) startIdx
  ⟨decide (batches.length < startIdx), r.1, r.2⟩

/-! ## Reward scoring (`run_reward.py`)

`compute_single_reward` calls the external scoring collaborator
`_default_compute_score` under a SIGALRM-based wall-clock timeout.  The
collaborator is abstracted as a function from its four string arguments to a
`CollabBehavior`: how many seconds the call would take and whether it returns
a value (a bare float or a dict) or raises an exception.  Scores are modelled
as rationals.  With `_TASK_TIMEOUT = some limit`, the alarm interrupts the
call exactly when its duration exceeds `limit`. -/

/-- Auxiliary fields of a structured (dict) result from the scoring
collaborator, other than `score` and `error`. -/
abbrev RestFields := List (String × String)

/-- A structured (dict) result returned by the scoring collaborator: the
`score` key may be absent. -/
structure RawDetail where
  score? : Option Rat
  rest : RestFields
deriving DecidableEq

/-- A value returned by the scoring collaborator: either a bare float or a
dict. -/
inductive ScoreVal where
  | flt (x : Rat)
  | dct (d : RawDetail)
deriving DecidableEq

/-- What a call into the scoring collaborator does if allowed to finish:
return a value or raise an exception with a message.  `isTimeout` records
whether the raised exception is a `TimeoutError` (or subclass): the
`except TimeoutError:` clause at line 82 comes before `except Exception`
and catches those regardless of who raised them. -/
inductive RunOutcome where
  | ret (v : ScoreVal)
  | exn (isTimeout : Bool) (msg : String)
deriving DecidableEq

/-- Behaviour of one call into the scoring collaborator: its wall-clock
duration in seconds and its outcome. -/
structure CollabBehavior where
  durationSec : Nat
  outcome : RunOutcome
deriving DecidableEq

/-- The detailed dict returned by `compute_single_reward` for one task.  The
`score` key is optional in the dict shape; `compute_single_reward` always
fills it in (claim C10). -/
structure Detailed where
  score? : Option Rat
  error : Option String
  rest : RestFields
deriving DecidableEq

/-- One entry of the task list built by `score_rank_dir`:
`(gid, response, data_source, ground_truth, extra_info)`. -/
structure TaskArgs where
  gid : Nat
  response : String
  dataSource : String
  groundTruth : String
  extraInfo : String
deriving DecidableEq

/-- The scoring collaborator (`_default_compute_score`), abstracted by its
behaviour on `(data_source, solution_str, ground_truth, extra_info)`. -/
abbrev Collab := String → String → String → String → CollabBehavior

/-- The `try` body of `compute_single_reward` once the collaborator has
returned a value: a dict result keeps its fields and gets
`score = detailed.get("score", 0.0)` written back; a float becomes
`{"score": float(result)}`. -/
def applyScoreVal (v : ScoreVal) : Detailed :=
  match v with
  | .flt x => ⟨some x, none, []⟩
  | .dct d => ⟨some (d.score?.getD 0), none, d.rest⟩

/-- The message of the `except TimeoutError` clause,
`f"task_timeout>{_TASK_TIMEOUT}s"` (Python renders `None` as `"None"` when
no timeout is configured). -/
def timeoutMarker (timeoutCfg : Option Nat) : String :=
  "task_timeout>" ++
    (match timeoutCfg with
     | some limit => toString limit
     | none => "None") ++ "s"

/-- The `except` clauses of `compute_single_reward` applied to the
collaborator's own outcome: value results go through `applyScoreVal`; a
raised `TimeoutError` hits `except TimeoutError:` first and becomes the
`task_timeout` marker dict, its own message discarded; any other exception
is caught by `except Exception as e` as `{"score": 0.0, "error": str(e)}`. -/
def handleOutcome (timeoutCfg : Option Nat) (o : RunOutcome) : Detailed :=
  match o with
  | .ret v => applyScoreVal v
  | .exn true _ => ⟨some 0, some (timeoutMarker timeoutCfg), []⟩
  | .exn false m => ⟨some 0, some m, []⟩

/-- `compute_single_reward` (lines 53-88): with `_TASK_TIMEOUT = some limit`
the SIGALRM handler interrupts a collaborator running longer than `limit`
seconds with a `TimeoutError`, caught by the same `except TimeoutError:`
clause as a collaborator-raised one; otherwise (and always when
`_TASK_TIMEOUT = none`, where no alarm is armed) the collaborator's own
outcome is handled.  Returns `(gid, detailed)`. -/
def computeSingleReward (timeoutCfg : Option Nat) (collab : Collab)
    (t : TaskArgs) : Nat × Detailed :=
  let b := collab t.dataSource t.response t.groundTruth t.extraInfo
  let interrupted :=
    match timeoutCfg with
    | some limit => decide (limit < b.durationSec)
    | none => false
  if interrupted then (t.gid, ⟨some 0, some (timeoutMarker timeoutCfg), []⟩)
  else (t.gid, handleOutcome timeoutCfg b.outcome)

/-- A pool worker's life over the tasks dispatched to it: each task is
scored by `compute_single_reward` in turn; no task's result influences any
other task, and the worker keeps processing after timeouts and errors. -/
def workerRun (timeoutCfg : Option Nat) (collab : Collab)
    (ts : List TaskArgs) : List (Nat × Detailed) :=
  ts.map (computeSingleReward timeoutCfg collab)

/-- Invariant of `load_checkpoint` (claims C2/C3): `current_batch_idx` is
one past the highest batch index parsed from a filename, or `0` when no
batch file yields an index.  (A file counts here as soon as its *name*
parses; whether its content loads does not matter, see C3.) -/
def NextIdxSpec {α : Type} (files : List (FileEntry α)) : Prop :=
  ((files.filterMap fun f => parseBatchNum f.name) = [] →
    (loadCheckpoint files false).currentBatchIdx = 0) ∧
  ∀ m, m ∈ (files.filterMap fun f => parseBatchNum f.name) →
    (∀ n ∈ (files.filterMap fun f => parseBatchNum f.name), n ≤ m) →
    (loadCheckpoint files false).currentBatchIdx = m + 1

/-- Resumption contract (claim C2) for a directory whose batch files are
exactly batches `0..k`: the resolver returns `next_batch_index = k + 1` and
a results map whose size is the sum of the batches' sample counts. -/
def CheckpointResumeSpec {α : Type} (files : List (FileEntry α)) (k : Nat) : Prop :=
  (loadCheckpoint files false).currentBatchIdx = k + 1 ∧
  (loadCheckpoint files false).globalResults.length =
    (files.map (fun f => (f.content.getD []).length)).sum

/-- Robustness contract (claim C3, amended): files whose name does not
parse have no effect at all on the checkpoint; the results map is
determined by the fully valid files alone; and `current_batch_idx` is one
past the highest filename-parsed index (so content-corrupt files still
count toward it). -/
def RobustResolveSpec {α : Type} (files : List (FileEntry α)) : Prop :=
  loadCheckpoint files false =
    loadCheckpoint (files.filter fun f => (parseBatchNum f.name).isSome) false ∧
  (loadCheckpoint files false).globalResults =
    (loadCheckpoint (files.filter isValidFile) false).globalResults ∧
  NextIdxSpec files

/-- A directory listing holding exactly the completed batches `0..1`
(returned by the filesystem out of index order). -/
def c2files : List (FileEntry String) :=
  [⟨"batch_00001.json", some [(0, "s10")]⟩,
   ⟨"batch_00000.json", some [(0, "s00"), (1, "s01")]⟩]

/-- A directory listing with one valid batch file and one whose content is
corrupt (`json.load` fails). -/
def c3files : List (FileEntry String) :=
  [⟨"batch_00000.json", some [(0, "s00"), (1, "s01")]⟩,
   ⟨"batch_00005.json", none⟩]

/-- No-op contract (claim C4) for a run whose checkpoint says everything is
done: no artifact is written, no error is raised, and the
"exceeds dataset size" warning fires exactly when the checkpoint claims
more batches than exist. -/
def CompletedShardSpec {γ : Type} (gen : BatchInput → γ)
    (batches : List BatchInput) (startIdx : Nat) : Prop :=
  (runInferenceModel gen batches startIdx).artifacts = [] ∧
  (runInferenceModel gen batches startIdx).fatalError = none ∧
  (runInferenceModel gen batches startIdx).exceedWarning =
    decide (batches.length < startIdx)

/-- Fatal-template contract (claim C5): the run stops with the
`RuntimeError`, only the batches before the offending one have artifacts,
and the error is raised independently of the generation collaborator (in
particular, before it is invoked on the offending batch). -/
def TemplateFatalSpec {γ : Type} (gen : BatchInput → γ)
    (batches : List BatchInput) (startIdx : Nat) (pre : List BatchInput) : Prop :=
  (runInferenceModel gen batches startIdx).fatalError = some templateErrMsg ∧
  (runInferenceModel gen batches startIdx).artifacts.map Prod.fst =
    (List.range pre.length).map (fun i => batchFileName (startIdx + i)) ∧
  ∀ gen' : BatchInput → γ,
    (runInferenceModel gen' batches startIdx).fatalError = some templateErrMsg

/-- A two-batch dataloader used to instantiate C4. -/
def c4batches : List BatchInput :=
  [⟨2, some [true, true]⟩, ⟨2, none⟩]

/-- A directory listing holding completed batches `0..1` for C4. -/
def c4files : List (FileEntry String) :=
  [⟨"batch_00000.json", some [(0, "s00"), (1, "s01")]⟩,
   ⟨"batch_00001.json", some [(0, "s10")]⟩]

/-- A dataloader whose second batch has a sample with
`apply_chat_template = False`. -/
def c5batches : List BatchInput :=
  [⟨1, some [true]⟩, ⟨2, some [true, false]⟩]

/-- A collaborator whose behaviour is the same for every task (used to
instantiate theorems at concrete inputs). -/
def constCollab (b : CollabBehavior) : Collab := fun _ _ _ _ => b

/-- A sample task at concrete input values. -/
def exTask : TaskArgs := ⟨0, "resp", "src", "gt", "extra"⟩

/-- Contract for a timed-out task (claim C6): its result is the zero score
tagged with the marker naming the timeout, and in a worker's task stream the
tasks before and after it are processed exactly as they would be on their
own — the worker keeps running and no sibling task is affected. -/
def TimeoutResultSpec (limit : Nat) (collab : Collab) (t : TaskArgs) : Prop :=
  computeSingleReward (some limit) collab t =
    (t.gid, ⟨some 0, some ("task_timeout>" ++ toString limit ++ "s"), []⟩) ∧
  ∀ ts₁ ts₂, workerRun (some limit) collab (ts₁ ++ t :: ts₂) =
    workerRun (some limit) collab ts₁ ++
      (t.gid, (⟨some 0, some ("task_timeout>" ++ toString limit ++ "s"), []⟩ : Detailed)) ::
        workerRun (some limit) collab ts₂

/-- Contract for a task whose collaborator raises (claim C7, amended): the
result is score `0.0` with the exception message captured when the
exception is not a `TimeoutError`, and the `task_timeout` marker (its own
message discarded) when it is; sibling tasks are processed exactly as on
their own, and the run yields one result per dispatched task. -/
def ExceptionResultSpec (timeoutCfg : Option Nat) (collab : Collab)
    (t : TaskArgs) (isTO : Bool) (m : String) : Prop :=
  computeSingleReward timeoutCfg collab t =
    (t.gid, ⟨some 0, some (if isTO then timeoutMarker timeoutCfg else m), []⟩) ∧
  (∀ ts₁ ts₂, workerRun timeoutCfg collab (ts₁ ++ t :: ts₂) =
    workerRun timeoutCfg collab ts₁ ++
      (t.gid, (⟨some 0, some (if isTO then timeoutMarker timeoutCfg else m), []⟩ : Detailed)) ::
        workerRun timeoutCfg collab ts₂) ∧
  (∀ ts : List TaskArgs, (workerRun timeoutCfg collab ts).length = ts.length)

/-- Contract for a dict result lacking a `score` field (claim C10): the
dict's own fields are kept and `score = 0.0` is added; and every task result
whatsoever carries a `score` key. -/
def MissingScoreSpec (timeoutCfg : Option Nat) (collab : Collab)
    (t : TaskArgs) (d : RawDetail) : Prop :=
  computeSingleReward timeoutCfg collab t = (t.gid, ⟨some 0, none, d.rest⟩) ∧
  ∀ (cfg' : Option Nat) (collab' : Collab) (t' : TaskArgs),
    ((computeSingleReward cfg' collab' t').2.score?).isSome = true

/-! ## Result aggregator (`score_rank_dir`, lines 94-189)

One batch file is a mapping from sample index (string) to sample.  The loop
builds one `ScoreTask` per not-yet-scored response (stripping the reasoning
prefix up to `</think>`), dispatches them (`imap_unordered` when pooled —
results may arrive in any order, modelled by quantifying over permutations
of the in-order delivery — or plain `map` when `workers <= 1`), groups the
results back by sample via the `gid → s_idx` lookup, and writes back
`detailed_scores`, `scores` and `pass_rate`. -/

/-- One sample of a batch file, with the optional score fields written by a
previous scoring pass. -/
structure Sample where
  responses : List String
  source : String
  groundTruth : String
  extraInfo : String
  scores : Option (List Rat)
  detailedScores : Option (List Detailed)
  passRate : Option Rat
deriving DecidableEq

/-- Python truthiness of `sample.get("scores")`: present and non-empty. -/
def hasScores (s : Sample) : Bool :=
  match s.scores with
  | some (_ :: _) => true
  | _ => false

/-- The suffix of `l` after the first occurrence of `sep`, if any. -/
def afterFirst (sep : List Char) : List Char → Option (List Char)
  | [] => none
  | c :: cs =>
    if sep.isPrefixOf (c :: cs) then some ((c :: cs).drop sep.length)
    else afterFirst sep cs

/-- `raw.split("</think>", 1)[1] if "</think>" in raw else raw`. -/
def stripThink (raw : String) : String :=
  match afterFirst "</think>".toList raw.toList with
  | some suffix => String.mk suffix
  | none => raw

/-- The running state of the task-building loop: the task list, the
`gid → s_idx` lookup, and the gid counter. -/
structure BuildState where
  tasks : List TaskArgs
  lookup : List (Nat × String)
  gid : Nat
deriving DecidableEq

/-- The `for raw_resp in sample["responses"]` loop: one task per response,
on the post-`</think>` content. -/
def buildSampleTasks (st : BuildState) (sidx : String) (s : Sample) : BuildState :=
  s.responses.foldl
    (fun st2 raw =>
      ⟨st2.tasks ++ [⟨st2.gid, stripThink raw, s.source, s.groundTruth, s.extraInfo⟩],
       st2.lookup ++ [(st2.gid, sidx)],
       st2.gid + 1⟩)
    st

/-- The `for s_idx, sample in batch.items()` task-building loop: samples
already bearing scores are passed through untouched unless recompute is
forced. -/
def buildTasks (recalc : Bool) (batch : List (String × Sample)) : BuildState :=
  batch.foldl
    (fun st kv =>
      if !recalc && hasScores kv.2 then st
      else buildSampleTasks st kv.1 kv.2)
    ⟨[], [], 0⟩

/-- `detailed_by_sample.setdefault(s_idx, []).append(detailed)`. -/
def appendAt (m : List (String × List Detailed)) (k : String) (d : Detailed) :
    List (String × List Detailed) :=
  if m.any (fun p => p.1 == k) then
    m.map (fun p => if p.1 == k then (p.1, p.2 ++ [d]) else p)
  else m ++ [(k, [d])]

/-- Routing one arriving result to its owning sample (`s_idx =
lookup[gidx]`; a gid outside the table cannot arise for results of the
dispatched tasks). -/
def groupStep (table : List (Nat × String)) (m : List (String × List Detailed))
    (gd : Nat × Detailed) : List (String × List Detailed) :=
  match table.lookup gd.1 with
  | some sidx => appendAt m sidx gd.2
  | none => m

/-- The result-collection loop, in arrival order. -/
def groupBySample (table : List (Nat × String))
    (delivered : List (Nat × Detailed)) : List (String × List Detailed) :=
  delivered.foldl (groupStep table) []

/-- The write-back of one scored sample:
`scores = [d["score"] for d in detailed_list]`,
`pass_cnt = sum(s >= threshold for s in scores)`,
`pass_rate = pass_cnt / len(scores) if scores else 0.0` (the `score` key is
always present on arriving results, claim C10; `getD 0` renders the plain
`d["score"]` read total). -/
def updateSample (threshold : Rat) (s : Sample) (ds : List Detailed) : Sample :=
  let scores := ds.map (fun d => d.score?.getD 0)
  let passCnt := (scores.filter (fun x => threshold ≤ x)).length
  { s with
      detailedScores := some ds
      scores := some scores
      passRate := some (if scores.isEmpty then 0 else (passCnt : Rat) / (scores.length : Rat)) }

/-- The batch as rewritten to its file: each sample with collected results
is updated in place; the others are untouched. -/
def scoredBatch (recalc : Bool) (threshold : Rat) (batch : List (String × Sample))
    (delivered : List (Nat × Detailed)) : List (String × Sample) :=
  let st := buildTasks recalc batch
  let grouped := groupBySample st.lookup delivered
  batch.map (fun kv =>
    match grouped.lookup kv.1 with
    | some ds => (kv.1, updateSample threshold kv.2 ds)
    | none => kv)

/-- The write-back contract of the aggregator (claim C8): whenever the
grouping assigns a sample the detail list `ds`, the rewritten batch holds
that sample updated so that `detailed_scores = ds`, `scores` is the list of
score values extracted from `ds`, and `pass_rate` is the fraction of scores
meeting the threshold (`0.0` with no scores). -/
def AggregatorWriteBackSpec : Prop :=
  ∀ (recalc : Bool) (θ : Rat) (batch : List (String × Sample))
    (delivered : List (Nat × Detailed)) (k : String) (ds : List Detailed) (s : Sample),
    (groupBySample (buildTasks recalc batch).lookup delivered).lookup k = some ds →
    (k, s) ∈ batch →
    ((k, updateSample θ s ds) ∈ scoredBatch recalc θ batch delivered ∧
     (updateSample θ s ds).detailedScores = some ds ∧
     (updateSample θ s ds).scores = some (ds.map (fun d => d.score?.getD 0)) ∧
     (updateSample θ s ds).passRate = some (if ds.isEmpty then 0 else
       (((ds.map (fun d => d.score?.getD 0)).filter (fun x => θ ≤ x)).length : Rat) /
         (ds.length : Rat)))

/-- A fresh two-response sample for the end-to-end example. -/
def mkE2eSample (r0 r1 : String) : Sample :=
  ⟨[r0, r1], "src", "gt", "extra", none, none, none⟩

/-- One batch of the end-to-end example: 2 samples, n = 2 responses each. -/
def e2eBatch : List (String × Sample) :=
  [("0", mkE2eSample "A" "B"), ("1", mkE2eSample "A" "B")]

/-- The end-to-end shard: 2 batch files of 2 samples each. -/
def e2eShard : List (List (String × Sample)) := [e2eBatch, e2eBatch]

/-- A collaborator scoring every sample's first response (text "A") `1.0`
and its second (text "B") `0.0`. -/
def e2eCollab : Collab := fun _ solution _ _ =>
  ⟨1, .ret (.flt (if solution == "A" then 1 else 0))⟩

/-- The in-order (sequential `map`) delivery of a batch's task results. -/
def e2eDelivered (batch : List (String × Sample)) : List (Nat × Detailed) :=
  workerRun (some 35) e2eCollab (buildTasks false batch).tasks

/-- End-to-end contract of the example shard (claim C8, amended): with
threshold `1.0`, every sample of every batch ends with
`pass_rate = 0.5` and a `scores` list that is a permutation of
`[1.0, 0.0]` under *any* delivery order of the pool results, and exactly
`[1.0, 0.0]` under in-order delivery. -/
def E2eShardSpec : Prop :=
  ∀ batch ∈ e2eShard,
    (∀ delivered, List.Perm delivered (e2eDelivered batch) →
      ∀ kv ∈ scoredBatch false 1 batch delivered,
        kv.2.passRate = some (1 / 2) ∧
        ∃ sc, kv.2.scores = some sc ∧ List.Perm sc [1, 0]) ∧
    (∀ kv ∈ scoredBatch false 1 batch (e2eDelivered batch),
      kv.2.scores = some [1, 0] ∧ kv.2.passRate = some (1 / 2))

/-! ## Final summary and pool shutdown (`score_rank_dir` lines 171-189,
`main` lines 252-267) -/

/-- The `metrics` object of `final_results.json`: exactly the three timing
fields, nothing else. -/
structure Metrics where
  totalTime : Rat
  numResponses : Nat
  avgRewardTime : Rat
deriving DecidableEq

/-- A `final_results.json` summary. -/
structure Summary where
  results : List (String × Sample)
  errors : List (String × String)
  metrics : Metrics
deriving DecidableEq

/-- The summary written at the end of `score_rank_dir`: the errors mapping
is the literal empty dict `{}`. -/
def mkSummary (rankResults : List (String × Sample)) (elapsed : Rat)
    (totalResponses : Nat) : Summary :=
  ⟨rankResults, [], ⟨elapsed, totalResponses, elapsed / ((max 1 totalResponses : Nat) : Rat)⟩⟩

/-- Outcome of one `main` run of the scoring pass. -/
structure MainResult where
  summaries : List Summary
  forcedTerminate : Bool
  consoleWarning : Bool
deriving DecidableEq

/-- `main`'s driver: each rank directory's summary is written inside the
`for rd in rank_dirs` loop (abstracting a rank as its accumulated results,
elapsed time and response count); only afterwards, in the `finally` block,
is the pool closed, waited for until the join deadline, and — if workers
are still alive then — terminated with a console warning.  Whether workers
were alive at the deadline is an environment input. -/
def mainRun (ranks : List (List (String × Sample) × Rat × Nat))
    (aliveAtDeadline : Bool) : MainResult :=
  ⟨ranks.map (fun rd => mkSummary rd.1 rd.2.1 rd.2.2), aliveAtDeadline, aliveAtDeadline⟩

/-- Reporting contract of forced termination (claim C9, amended): the final
summaries always carry an empty errors mapping and are identical whether or
not forced termination occurred (they are written before shutdown); the
only report of forced termination is the console warning, emitted exactly
when workers were still alive at the deadline. -/
def ForcedTermReportSpec : Prop :=
  ∀ (ranks : List (List (String × Sample) × Rat × Nat)) (alive : Bool),
    (∀ s ∈ (mainRun ranks alive).summaries, s.errors = []) ∧
    (mainRun ranks alive).summaries = (mainRun ranks false).summaries ∧
    (mainRun ranks alive).consoleWarning = alive ∧
    (mainRun ranks alive).forcedTerminate = alive

/-! ## Theorems -/

/-! ### Checkpoint-resolver helper lemmas -/

/-- The batch indices in `batch_files_with_idx` are exactly the parseable
filename indices, in listing order. -/
theorem withIdxOf_map_fst {α : Type} (files : List (FileEntry α)) :
    (withIdxOf files).map Prod.fst = files.filterMap fun f => parseBatchNum f.name := by
  induction files with
  | nil => rfl
  | cons f fs ih =>
    cases h : parseBatchNum f.name <;>
      simp [withIdxOf, List.filterMap_cons, h] <;>
      simpa [withIdxOf] using ih

/-- Membership in `batch_files_with_idx` comes from a listed file whose name
parses to that index. -/
theorem mem_withIdxOf {α : Type} {files : List (FileEntry α)} {n : Nat}
    {f : FileEntry α} (h : (n, f) ∈ withIdxOf files) :
    f ∈ files ∧ parseBatchNum f.name = some n := by
  simp only [withIdxOf, List.mem_filterMap] at h
  obtain ⟨g, hg, hmap⟩ := h
  cases hp : parseBatchNum g.name with
  | none => rw [hp] at hmap; simp at hmap
  | some m =>
    rw [hp] at hmap
    simp only [Option.map_some', Option.some.injEq, Prod.mk.injEq] at hmap
    obtain ⟨hm, hf⟩ := hmap
    subst hm; subst hf
    exact ⟨hg, hp⟩

/-- When every listed file's name parses, `batch_files_with_idx` pairs off
the files one-to-one. -/
theorem withIdxOf_map_snd {α : Type} {files : List (FileEntry α)}
    (h : ∀ f ∈ files, (parseBatchNum f.name).isSome) :
    (withIdxOf files).map Prod.snd = files := by
  induction files with
  | nil => rfl
  | cons f fs ih =>
    obtain ⟨n, hn⟩ := Option.isSome_iff_exists.mp (h f (by simp))
    have ht := ih (fun g hg => h g (List.mem_cons_of_mem f hg))
    simp only [withIdxOf, List.filterMap_cons, hn, Option.map_some', List.map_cons]
    simpa [withIdxOf] using ht

theorem hasKey_append {α : Type} (d e : List ((Nat × Nat) × α)) (k : Nat × Nat) :
    hasKey (d ++ e) k = (hasKey d k || hasKey e k) := by
  simp [hasKey, List.any_append]

theorem hasKey_eq_true_iff {α : Type} {d : List ((Nat × Nat) × α)} {k : Nat × Nat} :
    hasKey d k = true ↔ ∃ p ∈ d, p.1 = k := by
  simp [hasKey, List.any_eq_true, beq_iff_eq]

/-- Inserting a fresh key into the results dict appends it. -/
theorem dictInsert_fresh {α : Type} {d : List ((Nat × Nat) × α)} {k : Nat × Nat}
    {v : α} (h : hasKey d k = false) : dictInsert d k v = d ++ [(k, v)] := by
  simp [dictInsert, h]

/-- Merging one batch whose keys are fresh and distinct appends its entries
in order. -/
theorem insertMany_fresh {α : Type} (bd : List (Nat × α)) :
    ∀ (acc : List ((Nat × Nat) × α)) (n : Nat),
    (∀ iv ∈ bd, hasKey acc (n, iv.1) = false) → (bd.map Prod.fst).Nodup →
    insertMany acc n bd = acc ++ bd.map (fun iv => ((n, iv.1), iv.2)) := by
  induction bd with
  | nil => intro acc n _ _; simp [insertMany]
  | cons iv bd ih =>
    intro acc n hfresh hnd
    have h1 : hasKey acc (n, iv.1) = false := hfresh iv (by simp)
    have hstep : insertMany acc n (iv :: bd) =
        insertMany (acc ++ [((n, iv.1), iv.2)]) n bd := by
      simp only [insertMany, List.foldl_cons, dictInsert_fresh h1]
    have hfresh' : ∀ jv ∈ bd, hasKey (acc ++ [((n, iv.1), iv.2)]) (n, jv.1) = false := by
      intro jv hjv
      have hne : iv.1 ≠ jv.1 := by
        intro he
        have hmem : jv.1 ∈ bd.map Prod.fst := List.mem_map_of_mem _ hjv
        rw [← he] at hmem
        exact (List.nodup_cons.mp (by simpa using hnd)).1 hmem
      rw [hasKey_append, hfresh jv (List.mem_cons_of_mem _ hjv)]
      simp [hasKey, hne]
    rw [hstep, ih _ n hfresh' (by simpa using (List.nodup_cons.mp (by simpa using hnd)).2)]
    simp

/-- Loading one file merges its content when it parsed, else does nothing
(`(none).getD [] = []`). -/
theorem loadStep_eq {α : Type} (acc : List ((Nat × Nat) × α)) (nf : Nat × FileEntry α) :
    loadStep acc nf = insertMany acc nf.1 (nf.2.content.getD []) := by
  cases h : nf.2.content <;> simp [loadStep, insertMany, h]

/-- The batch-loading fold over files with distinct indices and
well-formed contents just concatenates the loadable batches' entries. -/
theorem loadFold_eq {α : Type} (l : List (Nat × FileEntry α)) :
    ∀ acc : List ((Nat × Nat) × α),
    (l.map Prod.fst).Nodup →
    (∀ nf ∈ l, ((nf.2.content.getD []).map Prod.fst).Nodup) →
    (∀ p ∈ acc, p.1.1 ∉ l.map Prod.fst) →
    loadFold acc l = acc ++ l.flatMap (fun nf =>
      (nf.2.content.getD []).map (fun iv => ((nf.1, iv.1), iv.2))) := by
  induction l with
  | nil => intro acc _ _ _; simp [loadFold]
  | cons nf l ih =>
    intro acc hnd hkeys hacc
    have hndt : (l.map Prod.fst).Nodup := (List.nodup_cons.mp (by simpa using hnd)).2
    have hhead : nf.1 ∉ l.map Prod.fst := (List.nodup_cons.mp (by simpa using hnd)).1
    have hstep : loadFold acc (nf :: l) = loadFold (loadStep acc nf) l := by
      simp [loadFold]
    have hfresh : ∀ iv ∈ nf.2.content.getD [], hasKey acc (nf.1, iv.1) = false := by
      intro iv _
      cases hh : hasKey acc (nf.1, iv.1) with
      | false => rfl
      | true =>
        obtain ⟨p, hp, hpk⟩ := hasKey_eq_true_iff.mp hh
        have hp1 : p.1.1 = nf.1 := by rw [hpk]
        have := hacc p hp
        simp only [List.map_cons, List.mem_cons] at this
        exact absurd (Or.inl hp1) this
    rw [hstep, loadStep_eq, insertMany_fresh _ _ _ hfresh (hkeys nf (by simp))]
    rw [ih _ hndt (fun nf' h' => hkeys nf' (by simp [h'])) ?_]
    · simp
    · intro p hp
      rcases List.mem_append.mp hp with h | h
      · have := hacc p h
        simp only [List.map_cons, List.mem_cons] at this
        intro hmem
        exact this (Or.inr hmem)
      · obtain ⟨iv, _, he⟩ := List.mem_map.mp h
        rw [← he]
        exact hhead

/-- In a list sorted by batch index, every index is at most the last one. -/
theorem fst_le_getLast_fst {β : Type} :
    ∀ (l : List (Nat × β)) (hne : l ≠ [])
      (hp : l.Pairwise (fun a b => a.1 ≤ b.1)) (x : Nat × β),
      x ∈ l → x.1 ≤ (l.getLast hne).1 := by
  intro l
  induction l with
  | nil => intro hne; exact absurd rfl hne
  | cons a t ih =>
    intro hne hp x hx
    cases t with
    | nil =>
      simp only [List.mem_singleton] at hx
      subst hx
      exact le_refl _
    | cons b t' =>
      rw [List.getLast_cons (by simp : b :: t' ≠ [])]
      rcases List.mem_cons.mp hx with h | h
      · subst h
        exact List.rel_of_pairwise_cons hp (List.getLast_mem (by simp))
      · exact ih (by simp) (List.Pairwise.of_cons hp) x h

/-- `load_checkpoint` always sets `current_batch_idx` to one past the
highest filename-parsed batch index, or `0` when none parses. -/
theorem nextIdx_spec {α : Type} (files : List (FileEntry α)) : NextIdxSpec files := by
  constructor
  · intro hempty
    have hw : withIdxOf files = [] := by
      have h := withIdxOf_map_fst files
      rw [hempty] at h
      exact List.map_eq_nil_iff.mp h
    simp [loadCheckpoint, checkpointFromIdx, sortByIdx, hw]
  · intro m hm hmax
    have hperm : List.Perm (sortByIdx (withIdxOf files)) (withIdxOf files) :=
      List.perm_insertionSort _ _
    have hsorted : (sortByIdx (withIdxOf files)).Pairwise (fun a b => a.1 ≤ b.1) :=
      List.sorted_insertionSort _ _
    have hfsts : List.Perm ((sortByIdx (withIdxOf files)).map Prod.fst)
        (files.filterMap fun f => parseBatchNum f.name) := by
      rw [← withIdxOf_map_fst]
      exact hperm.map _
    have hmem : m ∈ (sortByIdx (withIdxOf files)).map Prod.fst :=
      hfsts.mem_iff.mpr hm
    obtain ⟨x, hx, hxm⟩ := List.mem_map.mp hmem
    have hnenil : sortByIdx (withIdxOf files) ≠ [] := by
      intro h
      rw [h] at hx
      exact absurd hx (List.not_mem_nil x)
    have hle1 : x.1 ≤ ((sortByIdx (withIdxOf files)).getLast hnenil).1 :=
      fst_le_getLast_fst _ hnenil hsorted x hx
    have hle2 : ((sortByIdx (withIdxOf files)).getLast hnenil).1 ≤ m := by
      apply hmax
      exact hfsts.mem_iff.mp
        (List.mem_map_of_mem _ (List.getLast_mem hnenil))
    have heq : ((sortByIdx (withIdxOf files)).getLast hnenil).1 = m :=
      le_antisymm hle2 (hxm ▸ hle1)
    have hlast := List.getLast?_eq_getLast _ hnenil
    simp only [loadCheckpoint, Bool.false_eq_true, if_false, checkpointFromIdx, hlast]
    rw [heq]

/-- Files whose name does not parse are invisible to
`batch_files_with_idx`. -/
theorem withIdxOf_filter_parse {α : Type} (files : List (FileEntry α)) :
    withIdxOf (files.filter fun f => (parseBatchNum f.name).isSome) =
      withIdxOf files := by
  induction files with
  | nil => rfl
  | cons f fs ih =>
    cases h : parseBatchNum f.name with
    | none => simpa [withIdxOf, List.filter_cons, List.filterMap_cons, h] using ih
    | some n => simpa [withIdxOf, List.filter_cons, List.filterMap_cons, h] using ih

/-- Keeping only fully valid files indexes exactly the loadable entries of
`batch_files_with_idx`. -/
theorem withIdxOf_filter_valid {α : Type} (files : List (FileEntry α)) :
    withIdxOf (files.filter isValidFile) =
      (withIdxOf files).filter (fun nf => nf.2.content.isSome) := by
  induction files with
  | nil => rfl
  | cons f fs ih =>
    cases h : parseBatchNum f.name with
    | none =>
      simpa [withIdxOf, List.filter_cons, List.filterMap_cons, isValidFile, h] using ih
    | some n =>
      cases hc : f.content with
      | none =>
        simpa [withIdxOf, List.filter_cons, List.filterMap_cons, isValidFile, h, hc]
          using ih
      | some bd =>
        simpa [withIdxOf, List.filter_cons, List.filterMap_cons, isValidFile, h, hc]
          using ih

/-- Two sorted indexings with no duplicate batch index and the same
elements are equal. -/
theorem sorted_nodup_fst_unique {α : Type} {l₁ l₂ : List (Nat × FileEntry α)}
    (hp : List.Perm l₁ l₂)
    (h₁ : l₁.Pairwise (fun a b => a.1 ≤ b.1))
    (h₂ : l₂.Pairwise (fun a b => a.1 ≤ b.1))
    (hn : (l₁.map Prod.fst).Nodup) : l₁ = l₂ := by
  have hn₁ : l₁.Pairwise (fun a b => a.1 ≠ b.1) := List.pairwise_map.mp hn
  have hn₂ : l₂.Pairwise (fun a b => a.1 ≠ b.1) :=
    List.pairwise_map.mp ((hp.map Prod.fst).nodup_iff.mp hn)
  have hs₁ : List.Sorted (fun a b : Nat × FileEntry α => a.1 < b.1) l₁ :=
    (h₁.and hn₁).imp (fun h => lt_of_le_of_ne h.1 h.2)
  have hs₂ : List.Sorted (fun a b : Nat × FileEntry α => a.1 < b.1) l₂ :=
    (h₂.and hn₂).imp (fun h => lt_of_le_of_ne h.1 h.2)
  exact List.eq_of_perm_of_sorted hp hs₁ hs₂

/-- Entries that contribute nothing can be dropped from a `flatMap`. -/
theorem flatMap_filter_of_nil {β γ : Type} (l : List β) (g : β → List γ)
    (p : β → Bool) (h : ∀ x ∈ l, p x = false → g x = []) :
    l.flatMap g = (l.filter p).flatMap g := by
  induction l with
  | nil => rfl
  | cons x l ih =>
    have iht := ih (fun y hy => h y (by simp [hy]))
    cases hx : p x with
    | true => simp [List.filter_cons, hx, iht]
    | false => simp [List.filter_cons, hx, h x (by simp) hx, iht]

/-- The results map recovered by `load_checkpoint` lists the loadable
batches' entries in index order (distinct indices, well-formed contents). -/
theorem loadCheckpoint_results_eq {α : Type} (files : List (FileEntry α))
    (hnodup : (files.filterMap fun f => parseBatchNum f.name).Nodup)
    (hkeys : ∀ f ∈ files, ((f.content.getD []).map Prod.fst).Nodup) :
    (loadCheckpoint files false).globalResults =
      (sortByIdx (withIdxOf files)).flatMap (fun nf =>
        (nf.2.content.getD []).map (fun iv => ((nf.1, iv.1), iv.2))) := by
  have hsp : List.Perm (sortByIdx (withIdxOf files)) (withIdxOf files) :=
    List.perm_insertionSort _ _
  have hnd : ((sortByIdx (withIdxOf files)).map Prod.fst).Nodup := by
    have h1 : List.Perm ((sortByIdx (withIdxOf files)).map Prod.fst)
        (files.filterMap fun f => parseBatchNum f.name) :=
      (hsp.map Prod.fst).trans (by rw [withIdxOf_map_fst])
    exact h1.nodup_iff.mpr hnodup
  have hk : ∀ nf ∈ sortByIdx (withIdxOf files),
      ((nf.2.content.getD []).map Prod.fst).Nodup := by
    intro nf hnf
    obtain ⟨n, f⟩ := nf
    obtain ⟨hf, _⟩ := mem_withIdxOf (hsp.subset hnf)
    exact hkeys f hf
  have hl := loadFold_eq (sortByIdx (withIdxOf files)) [] hnd hk (by simp)
  simp only [loadCheckpoint, Bool.false_eq_true, if_false, checkpointFromIdx]
  simpa [loadFold] using hl

/-- Every value result of the collaborator yields a detailed dict with a
`score` key. -/
theorem applyScoreVal_score_isSome (v : ScoreVal) :
    (applyScoreVal v).score?.isSome = true := by
  cases v <;> simp [applyScoreVal]

/-- Every non-timeout outcome yields a detailed dict with a `score` key. -/
theorem handleOutcome_score_isSome (timeoutCfg : Option Nat) (o : RunOutcome) :
    (handleOutcome timeoutCfg o).score?.isSome = true := by
  cases o with
  | ret v => simpa [handleOutcome] using applyScoreVal_score_isSome v
  | exn isTO m => cases isTO <;> simp [handleOutcome]

/-- C1: for every total sample count `T ≥ 0`, shard count `S ≥ 1` and rank
`r < S`, the shard partitioner assigns rank `r` the half-open range
`[r*(T//S), (r+1)*(T//S))` except the last rank, which gets `[r*(T//S), T)`;
the ranges are contiguous, pairwise disjoint, and their union is exactly
`[0, T)`; for `S = 1` the range is `[0, T)`. -/
theorem c1_shard_partitioner (T S : Nat) (hS : 1 ≤ S) : ShardPartitionSpec T S := by
  by_cases hS1 : S = 1
  · subst hS1
    refine ⟨?_, ?_, ?_, ?_, ?_⟩
    · intro r hr
      have : r = 0 := by omega
      subst this
      simp [prepareRange]
    · intro r hr; omega
    · intro r r' h1 h2; omega
    · intro i
      constructor
      · intro hi
        exact ⟨0, by omega, by simp [prepareRange], by simpa [prepareRange] using hi⟩
      · rintro ⟨r, hr, h1, h2⟩
        have : r = 0 := by omega
        subst this
        simpa [prepareRange] using h2
    · intro _; rfl
  · have hS2 : 1 < S := by omega
    have hstart : ∀ r, (prepareRange T S r).1 = r * (T / S) := by
      intro r; simp [prepareRange, hS2]
    have hend : ∀ r, (prepareRange T S r).2 =
        if r = S - 1 then T else r * (T / S) + T / S := by
      intro r
      by_cases h : r = S - 1 <;> simp [prepareRange, hS2, h]
    refine ⟨?_, ?_, ?_, ?_, ?_⟩
    · intro r hr
      refine ⟨hstart r, ?_⟩
      rw [hend]
      by_cases h : r = S - 1
      · simp [h]
      · simp only [h, if_false]
        ring
    · intro r hr
      rw [hend, hstart]
      have h : r ≠ S - 1 := by omega
      simp only [h, if_false]
      ring
    · intro r r' h1 h2
      rw [hend, hstart]
      have hne : r ≠ S - 1 := by omega
      simp only [hne, if_false]
      calc r * (T / S) + T / S = (r + 1) * (T / S) := by ring
        _ ≤ r' * (T / S) := Nat.mul_le_mul_right _ (by omega)
    · intro i
      constructor
      · intro hi
        by_cases hq0 : T / S = 0
        · refine ⟨S - 1, by omega, ?_, ?_⟩
          · rw [hstart, hq0]; simp
          · rw [hend]; simpa using hi
        · have hqpos : 0 < T / S := Nat.pos_of_ne_zero hq0
          by_cases hlt : i / (T / S) < S - 1
          · refine ⟨i / (T / S), by omega, ?_, ?_⟩
            · rw [hstart]; exact Nat.div_mul_le_self i (T / S)
            · rw [hend]
              have hne : i / (T / S) ≠ S - 1 := by omega
              simp only [hne, if_false]
              calc i = T / S * (i / (T / S)) + i % (T / S) :=
                    (Nat.div_add_mod i (T / S)).symm
                _ < T / S * (i / (T / S)) + T / S :=
                    Nat.add_lt_add_left (Nat.mod_lt i hqpos) _
                _ = i / (T / S) * (T / S) + T / S := by ring
          · refine ⟨S - 1, by omega, ?_, ?_⟩
            · rw [hstart]
              calc (S - 1) * (T / S) ≤ i / (T / S) * (T / S) :=
                    Nat.mul_le_mul_right _ (by omega)
                _ ≤ i := Nat.div_mul_le_self i (T / S)
            · rw [hend]; simpa using hi
      · rintro ⟨r, hr, h1, h2⟩
        rw [hend] at h2
        by_cases hne : r = S - 1
        · simpa [hne] using h2
        · simp only [hne, if_false] at h2
          have h3 : r * (T / S) + T / S ≤ T := by
            calc r * (T / S) + T / S = (r + 1) * (T / S) := by ring
              _ ≤ S * (T / S) := Nat.mul_le_mul_right _ (by omega)
              _ = T / S * S := by ring
              _ ≤ T := Nat.div_mul_le_self T S
          exact lt_of_lt_of_le h2 h3
    · intro h; exact absurd h hS1

/-- Witness for C1 at `T = 7`, `S = 3`. -/
theorem c1_shard_partitioner_witness : 1 ≤ 3 ∧ ShardPartitionSpec 7 3 :=
  ⟨by decide, c1_shard_partitioner 7 3 (by decide)⟩

/-- C2: for a directory whose batch artifact files are exactly the
completed batches `0..k` (each name parsing and each content loading, with
the JSON object keys of each batch distinct), and force-regenerate off, the
resolver returns `next_batch_index = k + 1` and a results map whose size is
the sum of the batches' sample counts — for any listing order, since the
file list is only constrained up to permutation; and on any directory the
resolved index is one past the highest filename-parsed batch index, or `0`
when none is found. -/
theorem c2_checkpoint_resume {α : Type} (files : List (FileEntry α)) (k : Nat)
    (hall : ∀ f ∈ files, (parseBatchNum f.name).isSome ∧ f.content.isSome ∧
      ((f.content.getD []).map Prod.fst).Nodup)
    (hperm : List.Perm (files.filterMap fun f => parseBatchNum f.name)
      (List.range (k + 1))) :
    CheckpointResumeSpec files k ∧ ∀ g : List (FileEntry α), NextIdxSpec g := by
  refine ⟨⟨?_, ?_⟩, fun g => nextIdx_spec g⟩
  · have hmem : k ∈ files.filterMap fun f => parseBatchNum f.name := by
      rw [hperm.mem_iff]
      simp
    have hmax : ∀ n ∈ files.filterMap fun f => parseBatchNum f.name, n ≤ k := by
      intro n hn
      rw [hperm.mem_iff] at hn
      simp only [List.mem_range] at hn
      omega
    exact (nextIdx_spec files).2 k hmem hmax
  · have hsp : List.Perm (sortByIdx (withIdxOf files)) (withIdxOf files) :=
      List.perm_insertionSort _ _
    have hfsts : List.Perm ((sortByIdx (withIdxOf files)).map Prod.fst)
        (List.range (k + 1)) :=
      (hsp.map Prod.fst).trans (by rw [withIdxOf_map_fst]; exact hperm)
    have hnd : ((sortByIdx (withIdxOf files)).map Prod.fst).Nodup :=
      hfsts.nodup_iff.mpr (List.nodup_range _)
    have hkeys : ∀ nf ∈ sortByIdx (withIdxOf files),
        ((nf.2.content.getD []).map Prod.fst).Nodup := by
      intro nf hnf
      obtain ⟨n, f⟩ := nf
      obtain ⟨hf, _⟩ := mem_withIdxOf (hsp.subset hnf)
      exact (hall f hf).2.2
    have hres : (loadCheckpoint files false).globalResults =
        (sortByIdx (withIdxOf files)).flatMap (fun nf =>
          (nf.2.content.getD []).map (fun iv => ((nf.1, iv.1), iv.2))) := by
      have hl := loadFold_eq (sortByIdx (withIdxOf files)) [] hnd hkeys (by simp)
      simp only [loadCheckpoint, Bool.false_eq_true, if_false, checkpointFromIdx]
      simpa [loadFold] using hl
    rw [hres, List.length_flatMap]
    have hsimp : List.map (List.length ∘ fun nf : Nat × FileEntry α =>
        (nf.2.content.getD []).map (fun iv => ((nf.1, iv.1), iv.2)))
          (sortByIdx (withIdxOf files)) =
        (sortByIdx (withIdxOf files)).map
          (fun nf => (nf.2.content.getD []).length) := by
      apply List.map_congr_left
      intro nf _
      simp
    rw [hsimp]
    have hsum1 : ((sortByIdx (withIdxOf files)).map
        (fun nf => (nf.2.content.getD []).length)).sum =
        ((withIdxOf files).map (fun nf => (nf.2.content.getD []).length)).sum :=
      (hsp.map _).sum_eq
    have hsnd : (withIdxOf files).map Prod.snd = files :=
      withIdxOf_map_snd (fun f hf => (hall f hf).1)
    have hsum2 : files.map (fun f => (f.content.getD []).length) =
        (withIdxOf files).map (fun nf => (nf.2.content.getD []).length) := by
      conv_lhs => rw [← hsnd]
      rw [List.map_map]
      rfl
    rw [hsum1, ← hsum2]

/-- Witness for C2: batches `0..1` listed out of order. -/
theorem c2_checkpoint_resume_witness :
    (∀ f ∈ c2files, (parseBatchNum f.name).isSome ∧ f.content.isSome ∧
      ((f.content.getD []).map Prod.fst).Nodup) ∧
    List.Perm (c2files.filterMap fun f => parseBatchNum f.name) (List.range 2) ∧
    (CheckpointResumeSpec c2files 1 ∧ ∀ g : List (FileEntry String), NextIdxSpec g) :=
  ⟨by decide, by decide, c2_checkpoint_resume c2files 1 (by decide) (by decide)⟩

/-- Counterexample to C3 as stated: in a directory with one valid batch
file (`batch_00000.json`) and one whose content is corrupt
(`batch_00005.json`), the checkpoint is not the one determined by the
remaining valid files — the corrupt file still bumps `next_batch_index`
to 6, while the valid files alone give 1. -/
theorem c3_counterexample :
    loadCheckpoint c3files false ≠
      loadCheckpoint (c3files.filter isValidFile) false ∧
    (loadCheckpoint c3files false).currentBatchIdx = 6 ∧
    (loadCheckpoint (c3files.filter isValidFile) false).currentBatchIdx = 1 := by
  decide

/-- C3 (amended): the resolver never aborts on bad files: files whose name
fails to parse are skipped and have no effect on the checkpoint at all; the
results map is exactly the one determined by the remaining fully valid
files; and `next_batch_index` is one past the highest index parsed from a
filename (so a content-corrupt file with a parseable name still counts
toward it), or 0 when no file parses. -/
theorem c3_robust_checkpoint {α : Type} (files : List (FileEntry α))
    (hnodup : (files.filterMap fun f => parseBatchNum f.name).Nodup)
    (hkeys : ∀ f ∈ files, ((f.content.getD []).map Prod.fst).Nodup) :
    RobustResolveSpec files := by
  refine ⟨?_, ?_, nextIdx_spec files⟩
  · simp only [loadCheckpoint, Bool.false_eq_true, if_false]
    rw [withIdxOf_filter_parse]
  · have hwiF := withIdxOf_filter_valid files
    have hspL : List.Perm (sortByIdx (withIdxOf files)) (withIdxOf files) :=
      List.perm_insertionSort _ _
    have hspR : List.Perm (sortByIdx (withIdxOf (files.filter isValidFile)))
        (withIdxOf (files.filter isValidFile)) :=
      List.perm_insertionSort _ _
    have hndwi : ((withIdxOf files).map Prod.fst).Nodup := by
      rw [withIdxOf_map_fst]
      exact hnodup
    have hndF : ((files.filter isValidFile).filterMap
        fun f => parseBatchNum f.name).Nodup := by
      have hsub : List.Sublist (withIdxOf (files.filter isValidFile))
          (withIdxOf files) := by
        rw [hwiF]
        exact List.filter_sublist _
      have : ((withIdxOf (files.filter isValidFile)).map Prod.fst).Nodup :=
        List.Nodup.sublist (hsub.map Prod.fst) hndwi
      rwa [withIdxOf_map_fst] at this
    have hresL := loadCheckpoint_results_eq files hnodup hkeys
    have hresR := loadCheckpoint_results_eq (files.filter isValidFile) hndF
      (fun f hf => hkeys f (List.mem_of_mem_filter hf))
    have hfilt : (sortByIdx (withIdxOf files)).filter (fun nf => nf.2.content.isSome) =
        sortByIdx (withIdxOf (files.filter isValidFile)) := by
      apply sorted_nodup_fst_unique
      · have h1 : List.Perm (sortByIdx (withIdxOf (files.filter isValidFile)))
            ((withIdxOf files).filter (fun nf => nf.2.content.isSome)) := by
          rw [← hwiF]
          exact hspR
        exact (hspL.filter _).trans h1.symm
      · exact List.Pairwise.sublist (List.filter_sublist _)
          (List.sorted_insertionSort _ _)
      · exact List.sorted_insertionSort _ _
      · exact List.Nodup.sublist ((List.filter_sublist _).map Prod.fst)
          ((hspL.map Prod.fst).nodup_iff.mpr hndwi)
    rw [hresL, hresR, ← hfilt]
    apply flatMap_filter_of_nil
    intro nf _ hnp
    cases hc : nf.2.content with
    | none => simp
    | some bd => rw [hc] at hnp; simp at hnp

/-- Witness for C3's amended claim at the counterexample directory. -/
theorem c3_robust_checkpoint_witness :
    (c3files.filterMap fun f => parseBatchNum f.name).Nodup ∧
    (∀ f ∈ c3files, ((f.content.getD []).map Prod.fst).Nodup) ∧
    RobustResolveSpec c3files :=
  ⟨by decide, by decide, c3_robust_checkpoint c3files (by decide) (by decide)⟩

/-- C4: a run whose resolved checkpoint says all batches are completed
(`next_batch_index ≥` batch count, force-regenerate off) processes zero new
batches and writes no artifact; when the checkpoint claims strictly more
batches than the dataset yields, it stops early with the warning instead of
failing — so a second run over a fully completed shard is a no-op on the
artifact store. -/
theorem c4_completed_shard_noop {α γ : Type} (gen : BatchInput → γ)
    (files : List (FileEntry α)) (batches : List BatchInput)
    (h : batches.length ≤ (loadCheckpoint files false).currentBatchIdx) :
    CompletedShardSpec gen batches ((loadCheckpoint files false).currentBatchIdx) := by
  have hdrop : batches.drop ((loadCheckpoint files false).currentBatchIdx) = [] := by
    rw [List.drop_eq_nil_iff]
    omega
  refine ⟨?_, ?_, rfl⟩
  · simp [runInferenceModel, hdrop, runMainLoop]
  · simp [runInferenceModel, hdrop, runMainLoop]

/-- Witness for C4: two completed batch artifacts, a two-batch dataloader. -/
theorem c4_completed_shard_noop_witness :
    c4batches.length ≤ (loadCheckpoint c4files false).currentBatchIdx ∧
    CompletedShardSpec (fun b => b.size) c4batches
      ((loadCheckpoint c4files false).currentBatchIdx) :=
  ⟨by decide, c4_completed_shard_noop (fun b => b.size) c4files c4batches (by decide)⟩

/-- The main loop stops at the first template-violating batch: the error is
raised, only the preceding batches got artifacts, and nothing depends on
the generation collaborator beyond those artifacts' contents. -/
theorem runMainLoop_template_fatal {γ : Type} (gen : BatchInput → γ) :
    ∀ (pre : List BatchInput) (bad : BatchInput) (rest : List BatchInput) (idx : Nat),
    (∀ b ∈ pre, templateViolation b = false) → templateViolation bad = true →
    (runMainLoop gen (pre ++ bad :: rest) idx).2 = some templateErrMsg ∧
    (runMainLoop gen (pre ++ bad :: rest) idx).1.map Prod.fst =
      (List.range pre.length).map (fun i => batchFileName (idx + i)) := by
  intro pre
  induction pre with
  | nil =>
    intro bad rest idx _ hbad
    simp [runMainLoop, hbad]
  | cons p pre ih =>
    intro bad rest idx hpre hbad
    have hp : templateViolation p = false := hpre p (by simp)
    have iht := ih bad rest (idx + 1) (fun b hb => hpre b (by simp [hb])) hbad
    constructor
    · simp only [List.cons_append, runMainLoop, hp, Bool.false_eq_true, if_false]
      exact iht.1
    · simp only [List.cons_append, runMainLoop, hp, Bool.false_eq_true, if_false,
        List.map_cons, List.append_eq]
      rw [iht.2]
      simp only [List.length_cons]
      rw [List.range_succ_eq_map]
      simp only [List.map_cons, List.map_map]
      refine congrArg₂ List.cons (by simp) (List.map_congr_left ?_)
      intro a ha
      simp only [Function.comp_apply]
      congr 1
      omega

/-- C5: if any sample of a batch arrives with `apply_chat_template = False`,
the runner raises the fatal `RuntimeError` immediately — before invoking the
generation collaborator on that batch and before writing its artifact — and
the error is not caught inside the runner. -/
theorem c5_template_fatal {γ : Type} (gen : BatchInput → γ)
    (batches pre rest : List BatchInput) (bad : BatchInput) (startIdx : Nat)
    (hdecomp : batches.drop startIdx = pre ++ bad :: rest)
    (hpre : ∀ b ∈ pre, templateViolation b = false)
    (hbad : templateViolation bad = true) :
    TemplateFatalSpec gen batches startIdx pre := by
  refine ⟨?_, ?_, ?_⟩
  · simp only [runInferenceModel, hdecomp]
    exact (runMainLoop_template_fatal gen pre bad rest startIdx hpre hbad).1
  · simp only [runInferenceModel, hdecomp]
    exact (runMainLoop_template_fatal gen pre bad rest startIdx hpre hbad).2
  · intro gen'
    simp only [runInferenceModel, hdecomp]
    exact (runMainLoop_template_fatal gen' pre bad rest startIdx hpre hbad).1

/-- Witness for C5: the second batch of `c5batches` has a sample with
`apply_chat_template = False`. -/
theorem c5_template_fatal_witness :
    c5batches.drop 0 =
      [(⟨1, some [true]⟩ : BatchInput)] ++ (⟨2, some [true, false]⟩ : BatchInput) :: [] ∧
    (∀ b ∈ [(⟨1, some [true]⟩ : BatchInput)], templateViolation b = false) ∧
    templateViolation (⟨2, some [true, false]⟩ : BatchInput) = true ∧
    TemplateFatalSpec (fun b => b.size) c5batches 0 [(⟨1, some [true]⟩ : BatchInput)] :=
  ⟨by decide, by decide, by decide,
    c5_template_fatal (fun b => b.size) c5batches [⟨1, some [true]⟩] []
      ⟨2, some [true, false]⟩ 0 (by decide) (by decide) (by decide)⟩

/-- C6: a scoring task whose collaborator does not finish within the
configured per-task timeout yields `{score: 0.0}` tagged with a marker
naming the timeout; the worker is not killed (it processes all remaining
tasks exactly as it would on its own) and no other dispatched task is
blocked or failed by it. -/
theorem c6_task_timeout (limit : Nat) (collab : Collab) (t : TaskArgs)
    (h : limit <
      (collab t.dataSource t.response t.groundTruth t.extraInfo).durationSec) :
    TimeoutResultSpec limit collab t := by
  have h1 : computeSingleReward (some limit) collab t =
      (t.gid, ⟨some 0, some ("task_timeout>" ++ toString limit ++ "s"), []⟩) := by
    simp [computeSingleReward, timeoutMarker, h]
  refine ⟨h1, ?_⟩
  intro ts₁ ts₂
  simp [workerRun, h1]

/-- Witness for C6: timeout 35s, a collaborator that would take 40s. -/
theorem c6_task_timeout_witness :
    35 < ((constCollab ⟨40, .exn false "boom"⟩) exTask.dataSource exTask.response
      exTask.groundTruth exTask.extraInfo).durationSec ∧
    TimeoutResultSpec 35 (constCollab ⟨40, .exn false "boom"⟩) exTask :=
  ⟨by decide, c6_task_timeout 35 (constCollab ⟨40, .exn false "boom"⟩) exTask (by decide)⟩

/-- Counterexample to C7 as stated: a collaborator that itself raises a
`TimeoutError` (here after 2s, well within the 35s limit, as the scoring
collaborator's internal 30s execution timeout can) has its message
discarded — `except TimeoutError:` at line 82 catches it first and reports
the `task_timeout>35s` marker instead of the exception's message. -/
theorem c7_counterexample :
    ((constCollab ⟨2, .exn true "command timed out after 30 seconds"⟩)
      exTask.dataSource exTask.response exTask.groundTruth exTask.extraInfo).outcome =
        .exn true "command timed out after 30 seconds" ∧
    (computeSingleReward (some 35)
      (constCollab ⟨2, .exn true "command timed out after 30 seconds"⟩) exTask).2.error =
        some "task_timeout>35s" ∧
    (computeSingleReward (some 35)
      (constCollab ⟨2, .exn true "command timed out after 30 seconds"⟩) exTask).2.error ≠
        some "command timed out after 30 seconds" := by
  decide

/-- C7 (amended): a scoring task whose collaborator raises an exception
that is not a `TimeoutError` yields `{score: 0.0}` with the exception
message in the `error` field; a collaborator-raised `TimeoutError` is
caught by the `except TimeoutError:` clause first and yields `{score: 0.0}`
tagged with the `task_timeout` marker, its own message discarded.  In
either case the exception does not propagate to sibling tasks or the pool,
and the scoring run completes with one result per dispatched task. -/
theorem c7_task_exception (timeoutCfg : Option Nat) (collab : Collab)
    (t : TaskArgs) (isTO : Bool) (m : String)
    (hexn :
      (collab t.dataSource t.response t.groundTruth t.extraInfo).outcome = .exn isTO m)
    (hnotime : ∀ limit, timeoutCfg = some limit →
      (collab t.dataSource t.response t.groundTruth t.extraInfo).durationSec ≤ limit) :
    ExceptionResultSpec timeoutCfg collab t isTO m := by
  have h1 : computeSingleReward timeoutCfg collab t =
      (t.gid, ⟨some 0, some (if isTO then timeoutMarker timeoutCfg else m), []⟩) := by
    cases timeoutCfg with
    | none => cases isTO <;> simp [computeSingleReward, handleOutcome, hexn]
    | some limit =>
      have hle := hnotime limit rfl
      have hnl : ¬ limit <
          (collab t.dataSource t.response t.groundTruth t.extraInfo).durationSec := by
        omega
      cases isTO <;> simp [computeSingleReward, hnl, handleOutcome, hexn]
  refine ⟨h1, ?_, ?_⟩
  · intro ts₁ ts₂
    simp [workerRun, h1]
  · intro ts
    simp [workerRun]

/-- Witness for C7: timeout 35s, a collaborator raising a non-timeout
exception after 2s. -/
theorem c7_task_exception_witness :
    ((constCollab ⟨2, .exn false "division by zero"⟩) exTask.dataSource exTask.response
      exTask.groundTruth exTask.extraInfo).outcome = .exn false "division by zero" ∧
    ExceptionResultSpec (some 35) (constCollab ⟨2, .exn false "division by zero"⟩)
      exTask false "division by zero" :=
  ⟨by decide,
    c7_task_exception (some 35) (constCollab ⟨2, .exn false "division by zero"⟩)
      exTask false "division by zero" (by decide) (by intro limit hl; cases hl; decide)⟩

/-- C10: a scoring task whose collaborator returns a dict without a `score`
field does not fail: the dict keeps its fields and is augmented with
`score = 0.0`; and every task result — success, missing field, error or
timeout — carries a `score` key. -/
theorem c10_missing_score_field (timeoutCfg : Option Nat) (collab : Collab)
    (t : TaskArgs) (d : RawDetail)
    (hret : (collab t.dataSource t.response t.groundTruth t.extraInfo).outcome =
      .ret (.dct d))
    (hscore : d.score? = none)
    (hnotime : ∀ limit, timeoutCfg = some limit →
      (collab t.dataSource t.response t.groundTruth t.extraInfo).durationSec ≤ limit) :
    MissingScoreSpec timeoutCfg collab t d := by
  have h1 : computeSingleReward timeoutCfg collab t = (t.gid, ⟨some 0, none, d.rest⟩) := by
    cases timeoutCfg with
    | none => simp [computeSingleReward, handleOutcome, applyScoreVal, hret, hscore]
    | some limit =>
      have hle := hnotime limit rfl
      have hnl : ¬ limit <
          (collab t.dataSource t.response t.groundTruth t.extraInfo).durationSec := by
        omega
      simp [computeSingleReward, hnl, handleOutcome, applyScoreVal, hret, hscore]
  refine ⟨h1, ?_⟩
  intro cfg' collab' t'
  cases cfg' with
  | none => simp [computeSingleReward, handleOutcome_score_isSome]
  | some limit =>
    simp only [computeSingleReward]
    split
    · rfl
    · simp [handleOutcome_score_isSome]

/-- Witness for C10: a collaborator returning a dict with only an `acc`
field. -/
theorem c10_missing_score_field_witness :
    ((constCollab ⟨1, .ret (.dct ⟨none, [("acc", "true")]⟩)⟩) exTask.dataSource
      exTask.response exTask.groundTruth exTask.extraInfo).outcome =
        .ret (.dct ⟨none, [("acc", "true")]⟩) ∧
    (⟨none, [("acc", "true")]⟩ : RawDetail).score? = none ∧
    MissingScoreSpec (some 35) (constCollab ⟨1, .ret (.dct ⟨none, [("acc", "true")]⟩)⟩)
      exTask ⟨none, [("acc", "true")]⟩ :=
  ⟨by decide, by decide,
    c10_missing_score_field (some 35)
      (constCollab ⟨1, .ret (.dct ⟨none, [("acc", "true")]⟩)⟩) exTask
      ⟨none, [("acc", "true")]⟩ (by decide) (by decide)
      (by intro limit hl; cases hl; decide)⟩

/-- Every entry of the rewritten batch is either an untouched original
sample or an original sample updated with some collected detail list. -/
theorem scoredBatch_mem {recalc : Bool} {θ : Rat} {batch : List (String × Sample)}
    {delivered : List (Nat × Detailed)} {kv : String × Sample}
    (h : kv ∈ scoredBatch recalc θ batch delivered) :
    kv ∈ batch ∨ ∃ s ds, (kv.1, s) ∈ batch ∧ kv = (kv.1, updateSample θ s ds) := by
  simp only [scoredBatch, List.mem_map] at h
  obtain ⟨p, hp, he⟩ := h
  cases hl : (groupBySample (buildTasks recalc batch).lookup delivered).lookup p.1 with
  | none =>
    rw [hl] at he
    left
    rw [← he]
    exact hp
  | some ds =>
    rw [hl] at he
    right
    subst he
    exact ⟨p.2, ds, by simpa using hp, rfl⟩

/-- The pass rate written back for a scored sample, given its score count
and passing count. -/
theorem updateSample_passRate_val (θ : Rat) (s : Sample) (ds : List Detailed)
    (n c : Nat) (hn : (ds.map (fun d => d.score?.getD 0)).length = n) (hne : n ≠ 0)
    (hc : ((ds.map (fun d => d.score?.getD 0)).filter (fun v => θ ≤ v)).length = c) :
    (updateSample θ s ds).passRate = some ((c : Rat) / (n : Rat)) := by
  have hemp : (ds.map (fun d => d.score?.getD 0)).isEmpty = false := by
    cases hd : ds.map (fun d => d.score?.getD 0) with
    | nil => rw [hd] at hn; simp at hn; exact absurd hn.symm hne
    | cons a l => rfl
  simp only [updateSample, hemp, Bool.false_eq_true, if_false, hn, hc]

/-- Counterexample to C8 as stated: the pool delivers results in arbitrary
order (`imap_unordered`); when the example batch's four results arrive in
reverse order, a sample's written-back `scores` list is not `[1.0, 0.0]`. -/
theorem c8_counterexample :
    List.Perm ((e2eDelivered e2eBatch).reverse) (e2eDelivered e2eBatch) ∧
    e2eBatch ∈ e2eShard ∧
    ∃ kv ∈ scoredBatch false 1 e2eBatch ((e2eDelivered e2eBatch).reverse),
      kv.2.scores ≠ some [1, 0] := by
  decide

/-- C8 (amended): for every sample the aggregator scores, `scores` is the
list of score values extracted from `detailed_scores` (one per collected
result) and `pass_rate` is the fraction of scores meeting the threshold
(`0.0` with no scores); in the 2-batch/2-sample/n=2 example with threshold
`1.0` where each sample's first response scores `1.0` and its second `0.0`,
every sample ends with `pass_rate = 0.5` and `scores` a permutation of
`[1.0, 0.0]` under any delivery order — exactly `[1.0, 0.0]` under
in-order (sequential) delivery. -/
theorem c8_aggregator_writeback : AggregatorWriteBackSpec ∧ E2eShardSpec := by
  constructor
  · intro recalc θ batch delivered k ds s hlook hmem
    refine ⟨?_, ?_, ?_, ?_⟩
    · have hmm := List.mem_map_of_mem
        (fun kv : String × Sample =>
          match (groupBySample (buildTasks recalc batch).lookup delivered).lookup kv.1 with
          | some ds2 => (kv.1, updateSample θ kv.2 ds2)
          | none => kv) hmem
      simp only [hlook] at hmm
      simpa only [scoredBatch] using hmm
    · simp [updateSample]
    · simp [updateSample]
    · cases ds with
      | nil => simp [updateSample]
      | cons d ds' => simp [updateSample]
  · intro batch hb
    have hbe : batch = e2eBatch := by
      simp only [e2eShard, List.mem_cons, List.mem_singleton] at hb
      rcases hb with h | h | h
      · exact h
      · exact h
      · exact absurd h (List.not_mem_nil batch)
    subst hbe
    have horigRate : ∀ kv2 ∈ e2eBatch, kv2.2.passRate = none := by decide
    constructor
    · intro delivered hperm kv hkv
      have hdec : ∀ x ∈ (e2eDelivered e2eBatch).permutations',
          ∀ kv2 ∈ scoredBatch false 1 e2eBatch x,
            kv2.2.scores.isSome = true ∧
            List.Perm (kv2.2.scores.getD []) [1, 0] ∧
            ((kv2.2.scores.getD []).filter (fun v => (1 : Rat) ≤ v)).length = 1 ∧
            kv2.2.passRate.isSome = true := by decide
      obtain ⟨hs, hperm10, hcount, hrate⟩ :=
        hdec delivered (List.mem_permutations'.mpr hperm) kv hkv
      rcases scoredBatch_mem hkv with horig | ⟨s, ds, _, hupd⟩
      · rw [horigRate kv horig] at hrate
        simp at hrate
      · have h2 : kv.2 = updateSample 1 s ds := by rw [hupd]
        have hscores : kv.2.scores = some (ds.map (fun d => d.score?.getD 0)) := by
          rw [h2]
          simp [updateSample]
        rw [hscores] at hperm10 hcount
        simp only [Option.getD_some] at hperm10 hcount
        have hlen : (ds.map (fun d => d.score?.getD 0)).length = 2 := by
          rw [hperm10.length_eq]
          rfl
        constructor
        · rw [h2, updateSample_passRate_val 1 s ds 2 1 hlen (by omega) hcount]
          norm_num
        · exact ⟨ds.map (fun d => d.score?.getD 0), hscores, hperm10⟩
    · intro kv hkv
      have hdec : ∀ kv2 ∈ scoredBatch false 1 e2eBatch (e2eDelivered e2eBatch),
          kv2.2.scores = some [1, 0] ∧ kv2.2.passRate.isSome = true := by decide
      obtain ⟨hsc, hrate⟩ := hdec kv hkv
      refine ⟨hsc, ?_⟩
      rcases scoredBatch_mem hkv with horig | ⟨s, ds, _, hupd⟩
      · rw [horigRate kv horig] at hrate
        simp at hrate
      · have h2 : kv.2 = updateSample 1 s ds := by rw [hupd]
        have hmap : ds.map (fun d => d.score?.getD 0) = [1, 0] := by
          have := hsc
          rw [h2] at this
          simp only [updateSample] at this
          exact Option.some.inj this
        rw [h2, updateSample_passRate_val 1 s ds 2 1 (by rw [hmap]; rfl) (by omega)
          (by rw [hmap]; decide)]
        norm_num

/-- C9 (corrected claim's counterexample): a scoring run in which forced
termination of pool workers occurred still writes summaries whose errors
mapping is empty — the loss is not called out in the final summary. -/
theorem c9_counterexample :
    (mainRun [([], 1, 0)] true).forcedTerminate = true ∧
    ∀ s ∈ (mainRun [([], 1, 0)] true).summaries, s.errors = [] := by
  decide

/-- C9 (amended): forced termination is reported only by a console warning
at shutdown; the final summaries are written before shutdown, are
independent of whether forced termination occurred, and always carry an
empty errors mapping (and metrics holding only the three timing fields). -/
theorem c9_forced_term_console_only : ForcedTermReportSpec := by
  intro ranks alive
  refine ⟨?_, rfl, rfl, rfl⟩
  intro s hs
  simp only [mainRun, List.mem_map] at hs
  obtain ⟨rd, _, he⟩ := hs
  rw [← he]
  rfl

end ModelFiltering
